import Mathlib

/-!
Shallow embedding of the `yolo12test` repository (red-square dataset
generator and the surrounding detection scripts), together with proofs of
the specified properties.

The core is `generate_red_square_image` from `generate_dataset3.py`.  All
randomness the Python code consumes (`random.randint`, `random.choice`,
`random.random`, `np.random.randint`) is made explicit as a record of
streams, `RandSrc`; `SrcValid` constrains every stream entry to the range
the corresponding call site requests:

  * `random.randint(a, b)` (Python) draws inclusively from `[a, b]` and
    raises `ValueError` when `b < a`;
  * `np.random.randint(low, high)` (numpy) draws from `[low, high)`, the
    upper bound excluded;
  * `random.random()` draws a real from `[0, 1)` (modelled as ℚ);
  * `random.choice(xs)` is modelled as an index draw below `xs.length`.

A possible `ValueError` (empty `randint` range) is modelled by returning
`none`.  The canvas is a total function `ℤ → ℤ → Fin 3 → ℤ`; only indices
inside `[0, imgSize)` correspond to real pixels.  OpenCV writes a color
scalar into a `uint8` image through `saturate_cast`, hence every write
clamps the channel value into `[0, 255]` (`clamp255`).
-/

/-- One pixel channel value; channel order is BGR (index 0 = B, 1 = G, 2 = R),
matching the numpy/OpenCV layout used by the source. -/
def Image : Type := ℤ → ℤ → Fin 3 → ℤ

/-- Saturating cast into a `uint8` channel, as applied both by `np.clip(·, 0, 255)`
and by OpenCV's `saturate_cast` when a drawing color is written. -/
def clamp255 (v : ℤ) : ℤ := max 0 (min 255 v)

/-- The explicit random source consumed by `generate_red_square_image`.
`bg` feeds the three `random.randint` background-color draws, `noise` the
`np.random.randint(-30, 30, (S, S, 3))` array, `countDraw` the
`random.randint(1, 3)` taken when `num_squares is None`, and the four
per-shape streams are indexed by the shape number (0-based draw order). -/
structure RandSrc where
  bg : Fin 3 → ℤ
  noise : ℤ → ℤ → Fin 3 → ℤ
  countDraw : ℤ
  sizeDraw : ℕ → ℤ
  xDraw : ℕ → ℤ
  yDraw : ℕ → ℤ
  colorDraw : ℕ → ℕ
  borderDraw : ℕ → ℚ

/-- Every stream entry lies in the range requested at its call site.
`np.random.randint(-30, 30)` excludes its upper bound, so noise entries lie
in `[-30, 29]`.  The origin draws `randint(0, img_size - square_size)` are
only constrained when the requested range is nonempty (otherwise the call
raises and no value is produced). -/
def SrcValid (sz : ℤ) (s : RandSrc) : Prop :=
  (100 ≤ s.bg 0 ∧ s.bg 0 ≤ 255) ∧
  (100 ≤ s.bg 1 ∧ s.bg 1 ≤ 255) ∧
  (50 ≤ s.bg 2 ∧ s.bg 2 ≤ 150) ∧
  (∀ i j c, -30 ≤ s.noise i j c ∧ s.noise i j c ≤ 29) ∧
  (1 ≤ s.countDraw ∧ s.countDraw ≤ 3) ∧
  (∀ k, 50 ≤ s.sizeDraw k ∧ s.sizeDraw k ≤ 200) ∧
  (∀ k, s.sizeDraw k ≤ sz → 0 ≤ s.xDraw k ∧ s.xDraw k ≤ sz - s.sizeDraw k) ∧
  (∀ k, s.sizeDraw k ≤ sz → 0 ≤ s.yDraw k ∧ s.yDraw k ≤ sz - s.sizeDraw k) ∧
  (∀ k, s.colorDraw k < 5) ∧
  (∀ k, 0 ≤ s.borderDraw k ∧ s.borderDraw k < 1)

/-- The list `red_variations` from the source: five fixed BGR triples. -/
def red_variations : List (List ℤ) :=
  [[30, 30, 255], [50, 50, 230], [40, 80, 255], [20, 20, 200], [60, 60, 255]]

/-- The computation `border_color = [c - 50 for c in red_color]`: computed without any
clamping (the saturation happens only when OpenCV writes the scalar into
the `uint8` canvas). -/
def border_color (col : List ℤ) : List ℤ := col.map (fun c => c - 50)

/-- One `cv2.rectangle` call recorded as ghost data: top-left corner,
side length, fill color, and whether the optional 2px border was drawn. -/
structure Placement where
  x : ℤ
  y : ℤ
  size : ℤ
  color : List ℤ
  hasBorder : Bool
deriving DecidableEq

/-- One YOLO-format annotation row `[0, center_x, center_y, width, height]`.
The Python arithmetic `(x + square_size / 2) / img_size` is exact true
division on these values, embedded in ℚ. -/
structure Label where
  classId : ℕ
  cx : ℚ
  cy : ℚ
  w : ℚ
  h : ℚ
deriving DecidableEq

/-- The background canvas: `np.full` with the drawn background color, plus
per-pixel noise, clipped into `[0, 255]` (lines 24-33 of the source). -/
def bgCanvas (s : RandSrc) : Image :=
  fun i j c => clamp255 (s.bg c + s.noise i j c)

/-- Pixels covered by the filled `cv2.rectangle(image, (x, y), (x+s, y+s), color, -1)`
call: OpenCV fills the rectangle with both given corners included;
`(x, y)` is (column, row). -/
def inFill (p : Placement) (i j : ℤ) : Prop :=
  p.x ≤ j ∧ j ≤ p.x + p.size ∧ p.y ≤ i ∧ i ≤ p.y + p.size

instance (p : Placement) (i j : ℤ) : Decidable (inFill p i j) := by
  unfold inFill; infer_instance

/-- Pixels covered by the 2px border stroke
`cv2.rectangle(..., border_color, 2)`: a band of width 2 centered on the
rectangle outline (one pixel beyond each corner on each side).  The exact
rasterization of a thickness-2 OpenCV stroke is abstracted by this band;
no specified property depends on the precise covered set. -/
def inBorder (p : Placement) (i j : ℤ) : Prop :=
  (p.x - 1 ≤ j ∧ j ≤ p.x + p.size + 1 ∧ p.y - 1 ≤ i ∧ i ≤ p.y + p.size + 1) ∧
  ¬ (p.x + 2 ≤ j ∧ j ≤ p.x + p.size - 2 ∧ p.y + 2 ≤ i ∧ i ≤ p.y + p.size - 2)

instance (p : Placement) (i j : ℤ) : Decidable (inBorder p i j) := by
  unfold inBorder; infer_instance

/-- Draw one square (fill, then the optional border on top) onto the canvas.
Channel values pass through OpenCV's `saturate_cast` into the `uint8`
image, hence the `clamp255` at each write. -/
def drawShape (img : Image) (p : Placement) : Image :=
  fun i j c =>
    if p.hasBorder ∧ inBorder p i j then clamp255 ((border_color p.color).getD c 0)
    else if inFill p i j then clamp255 (p.color.getD c 0)
    else img i j c

/-- The data of shape number `k`: the size, origin, color and border draws
of iteration `k` of the loop (`random.random() > 0.5` decides the
border). -/
def mkPlacement (s : RandSrc) (k : ℕ) : Placement :=
  ⟨s.xDraw k, s.yDraw k, s.sizeDraw k,
   red_variations.getD (s.colorDraw k) [],
   decide ((1 : ℚ) / 2 < s.borderDraw k)⟩

/-- The YOLO annotation of shape number `k` (lines 68-74):
`center = (origin + size / 2) / img_size`, `width = height = size / img_size`,
`class_id = 0`. -/
def mkLabel (sz : ℤ) (s : RandSrc) (k : ℕ) : Label :=
  ⟨0, ((s.xDraw k : ℚ) + (s.sizeDraw k : ℚ) / 2) / (sz : ℚ),
      ((s.yDraw k : ℚ) + (s.sizeDraw k : ℚ) / 2) / (sz : ℚ),
      (s.sizeDraw k : ℚ) / (sz : ℚ), (s.sizeDraw k : ℚ) / (sz : ℚ)⟩

/-- One iteration of the shape loop (lines 41-74), shape number `k`.
`random.randint(0, img_size - square_size)` raises `ValueError` when
`img_size - square_size < 0`; that case yields `none`. -/
def stepShape (sz : ℤ) (s : RandSrc) (k : ℕ) (img : Image) :
    Option (Image × Placement × Label) :=
  if s.sizeDraw k ≤ sz then
    some (drawShape img (mkPlacement s k), mkPlacement s k, mkLabel sz s k)
  else none

/-- The shape loop: `n` iterations in draw order, threading the canvas and
accumulating placements and labels. -/
def genLoop (sz : ℤ) (s : RandSrc) : ℕ → Option (Image × List Placement × List Label)
  | 0 => some (bgCanvas s, [], [])
  | n + 1 =>
    match genLoop sz s n with
    | none => none
    | some (img, ps, ls) =>
      match stepShape sz s n img with
      | none => none
      | some (img2, p, lab) => some (img2, ps ++ [p], ls ++ [lab])

/-- The number of shapes actually drawn: the argument when provided,
otherwise the `random.randint(1, 3)` draw. -/
def shapeCount (s : RandSrc) (numSquares : Option ℕ) : ℕ :=
  match numSquares with
  | some n => n
  | none => s.countDraw.toNat

/-- The function `generate_red_square_image(img_size, num_squares)`: returns the canvas
and the annotation list, with the placements kept as ghost data; `none`
models the `ValueError` raised when a drawn square does not fit. -/
def generate_red_square_image (sz : ℤ) (numSquares : Option ℕ) (s : RandSrc) :
    Option (Image × List Placement × List Label) :=
  genLoop sz s (shapeCount s numSquares)

/-- The annotation list of a call (empty when the call raises). -/
def genLabels (sz : ℤ) (numSquares : Option ℕ) (s : RandSrc) : List Label :=
  match generate_red_square_image sz numSquares s with
  | some (_, _, ls) => ls
  | none => []

/-- The placement list of a call (empty when the call raises). -/
def genPlacements (sz : ℤ) (numSquares : Option ℕ) (s : RandSrc) : List Placement :=
  match generate_red_square_image sz numSquares s with
  | some (_, ps, _) => ps
  | none => []

/-- The returned canvas of a call (all-zero when the call raises). -/
def genImage (sz : ℤ) (numSquares : Option ℕ) (s : RandSrc) : Image :=
  match generate_red_square_image sz numSquares s with
  | some (img, _, _) => img
  | none => fun _ _ _ => 0

/-!
## Annotation text format (`save_dataset`, lines 107-110)

Each label is written as
`f"{label[0]} {label[1]:.6f} {label[2]:.6f} {label[3]:.6f} {label[4]:.6f}\n"`:
space-separated, `classId` as a plain integer, each coordinate in fixed-point
notation with exactly six digits after the decimal point, one line per shape.
Fixed-point formatting rounds the value to the nearest multiple of `10⁻⁶`
(the tie-breaking policy is immaterial to every stated property).  The text
is modelled as `List Char`; the parser is the evident inverse reading of the
same format.
-/

/-- The character for the decimal digit `d` (`0 ≤ d ≤ 9`). -/
def digitCh (d : ℕ) : Char := Char.ofNat (48 + d)

/-- Decimal digits of `n`, most significant first; empty for `0`. -/
def digitsOfNat (n : ℕ) : List Char :=
  if h : n = 0 then [] else digitsOfNat (n / 10) ++ [digitCh (n % 10)]
decreasing_by exact Nat.div_lt_self (Nat.pos_of_ne_zero h) (by norm_num)

/-- Decimal rendering of `n` (renders `0` as `"0"`). -/
def renderNat (n : ℕ) : List Char := if n = 0 then [digitCh 0] else digitsOfNat n

/-- Is `c` one of the characters `0`-`9`? -/
def isDigitCh (c : Char) : Bool := decide (48 ≤ c.toNat ∧ c.toNat ≤ 57)

/-- Numeric value of a digit character. -/
def digitVal (c : Char) : ℕ := c.toNat - 48

/-- Accumulating decimal parser; fails on any non-digit character. -/
def parseNatAux : ℕ → List Char → Option ℕ
  | acc, [] => some acc
  | acc, c :: rest =>
    if isDigitCh c then parseNatAux (acc * 10 + digitVal c) rest else none

/-- Parse a nonempty all-digit character list. -/
def parseNatChars (cs : List Char) : Option ℕ :=
  if cs.isEmpty then none else parseNatAux 0 cs

/-- The integer nearest `q * 10⁶` (as ℕ; the labels being formatted are
nonnegative). -/
def round6 (q : ℚ) : ℕ := (round (q * 1000000)).toNat

/-- The exact value the 6-decimal rendering of `q` denotes. -/
def val6 (q : ℚ) : ℚ := (round6 q : ℚ) / 1000000

/-- The six fractional digits, left-padded with zeros. -/
def fracChars (f : ℕ) : List Char :=
  List.replicate (6 - (digitsOfNat f).length) (digitCh 0) ++ digitsOfNat f

/-- Fixed-point rendering of `q` with exactly six digits after the point
(Python `f"{q:.6f}"` for nonnegative `q`). -/
def fmt6 (q : ℚ) : List Char :=
  renderNat (round6 q / 1000000) ++ '.' :: fracChars (round6 q % 1000000)

/-- Newline character. -/
def nlCh : Char := Char.ofNat 10

/-- One line of the label file: `classId cx cy w h`, space-separated. -/
def writeLabelLine (l : Label) : List Char :=
  renderNat l.classId ++ ' ' :: fmt6 l.cx ++ ' ' :: fmt6 l.cy ++
    ' ' :: fmt6 l.w ++ ' ' :: fmt6 l.h

/-- The whole label file: one line per label, each terminated by a newline,
no header. -/
def writeLabelFile : List Label → List Char
  | [] => []
  | l :: ls => writeLabelLine l ++ nlCh :: writeLabelFile ls

/-- Split a character list at every occurrence of `c` (the separators are
consumed; `n` separators yield `n + 1` segments). -/
def splitOnCh (c : Char) : List Char → List (List Char)
  | [] => [[]]
  | a :: rest =>
    if a = c then [] :: splitOnCh c rest
    else
      match splitOnCh c rest with
      | [] => [[a]]
      | t :: ts => (a :: t) :: ts

/-- Parse one fixed-point token `intChars.fracChars`. -/
def parseFixed (cs : List Char) : Option ℚ :=
  match splitOnCh '.' cs with
  | [ip, fp] =>
    match parseNatChars ip, parseNatChars fp with
    | some a, some b => some ((a : ℚ) + (b : ℚ) / (10 : ℚ) ^ fp.length)
    | _, _ => none
  | _ => none

/-- Parse one label line. -/
def parseLabelLine (cs : List Char) : Option Label :=
  match splitOnCh ' ' cs with
  | [t0, t1, t2, t3, t4] =>
    match parseNatChars t0, parseFixed t1, parseFixed t2, parseFixed t3, parseFixed t4 with
    | some c0, some a, some b, some w, some h => some ⟨c0, a, b, w, h⟩
    | _, _, _, _, _ => none
  | _ => none

/-- Parse a list of lines, failing if any line fails. -/
def parseLines : List (List Char) → Option (List Label)
  | [] => some []
  | r :: rs =>
    match parseLabelLine r, parseLines rs with
    | some l, some ls => some (l :: ls)
    | _, _ => none

/-- Parse a label file: split on newlines and parse each line (the final
newline of the file leaves one empty trailing segment, which is dropped). -/
def parseLabelFile (cs : List Char) : Option (List Label) :=
  parseLines (splitOnCh nlCh cs).dropLast

/-- The label a written-then-parsed label comes back as: every coordinate
replaced by the exact value of its 6-decimal rendering. -/
def roundLabel (l : Label) : Label :=
  ⟨l.classId, val6 l.cx, val6 l.cy, val6 l.w, val6 l.h⟩

/-- Agreement of two values to 6-decimal precision. -/
def eq6 (a b : ℚ) : Prop := round (a * 1000000) = round (b * 1000000)

/-!
## Surrounding scripts (`helloTest2.py`, `predict_with_trained_model5.py`)

`detect_red_square` and `predict_single_image` are modelled as functions
from an abstract world (which answers `os.path.exists` queries, says
whether `cv2.imread` decodes a file, and supplies the opaque detector
results) to the ordered list of observable events they perform plus an
outcome.  An operation that can raise in Python (loading model weights
from a missing file) is modelled by an explicit `raised` outcome on the
corresponding branch; `cv2.imread` of a missing or undecodable file
returns `None` and does not raise.  Only the control flow up to and
including the guarded early returns is claim-relevant; the remainder of
each happy path is kept as an abstract event tail driven by the world.
-/

/-- Observable events of the surrounding scripts. -/
inductive Ev where
  | print (msg : String)
  | imreadCall (path : String)
  | detectWork
  | imwrite (path : String)
  | loadModel (path : String)
  | predictCall (path : String)
  | mkdir (dir : String)
  | saveResult (path : String)
deriving DecidableEq

/-- Script outcome: a normal `return`, or an uncaught Python exception. -/
inductive Outcome where
  | returned
  | raised (msg : String)
deriving DecidableEq

/-- The abstract world the scripts run against: `pathOk` models
`os.path.exists`, `decodeOk` whether `cv2.imread` yields a non-`None`
image, `detectCount` the number of large-enough red contours found, and
`resultPaths` the per-result file stems the opaque detector returns. -/
structure World where
  pathOk : String → Bool
  decodeOk : String → Bool
  detectCount : String → ℕ
  resultPaths : List String

/-- Events of the tail of `detect_red_square` after the guards pass:
detection work, then the result image is written only when at least one
region was found. -/
def detectTail (w : World) (imagePath outputPath : String) : List Ev :=
  if w.detectCount imagePath = 0 then [Ev.detectWork]
  else [Ev.detectWork, Ev.imwrite outputPath]

/-- The function `detect_red_square(image_path, output_path)` from `helloTest2.py`:
guards on file existence (line 28) and decode success (line 36), each
reporting through a console message and returning early. -/
def detect_red_square (w : World) (imagePath outputPath : String) :
    List Ev × Outcome :=
  let hdr := [Ev.print ("红色方块检测程序")]
  if w.pathOk imagePath = false then
    (hdr ++ [Ev.print ("错误：找不到图片文件 " ++ imagePath)], Outcome.returned)
  else
    let evs := hdr ++ [Ev.print ("正在读取图片 " ++ imagePath), Ev.imreadCall imagePath]
    if w.decodeOk imagePath = false then
      (evs ++ [Ev.print ("错误：无法读取图片 " ++ imagePath)], Outcome.returned)
    else
      (evs ++ detectTail w imagePath outputPath, Outcome.returned)

/-- Events of the per-result loop of `predict_single_image` (save one
output image per result, with console reports). -/
def resultEvents (w : World) (saveDir : String) : List Ev :=
  w.resultPaths.map (fun p => Ev.saveResult (saveDir ++ "/" ++ p))

/-- The call `YOLO(model_path)`: loading weights from a missing file raises
`FileNotFoundError`; otherwise the load succeeds. -/
def loadModelOp (w : World) (p : String) : Ev × Outcome :=
  if w.pathOk p then (Ev.loadModel p, Outcome.returned)
  else (Ev.loadModel p, Outcome.raised ("FileNotFoundError"))

/-- The function `predict_single_image(model_path, image_path, save_dir)` from
`predict_with_trained_model5.py`: checks the model file (line 23) and the
image file (line 28) before anything else; only then loads the model,
runs prediction, creates `save_dir` (line 42) and saves the results.
Both error guards return early with a console message, so the raising
load is never reached with a missing file. -/
def predict_single_image (w : World) (modelPath imagePath saveDir : String) :
    List Ev × Outcome :=
  let hdr := [Ev.print ("使用模型 " ++ modelPath), Ev.print ("检测图片 " ++ imagePath)]
  if w.pathOk modelPath = false then
    (hdr ++ [Ev.print ("错误：找不到模型文件 " ++ modelPath),
             Ev.print ("请先运行 train_custom_yolo4.py 完成训练")], Outcome.returned)
  else if w.pathOk imagePath = false then
    (hdr ++ [Ev.print ("错误：找不到图片文件 " ++ imagePath)], Outcome.returned)
  else
    match loadModelOp w modelPath with
    | (e, Outcome.returned) =>
      (hdr ++ [Ev.print ("正在加载模型"), e,
               Ev.print ("模型加载成功"), Ev.print ("正在检测"),
               Ev.predictCall imagePath, Ev.mkdir saveDir] ++ resultEvents w saveDir,
       Outcome.returned)
    | (e, o) => (hdr ++ [Ev.print ("正在加载模型"), e], o)

/-- Does this event modify the filesystem? -/
def isFsWrite : Ev → Bool
  | Ev.imwrite _ => true
  | Ev.mkdir _ => true
  | Ev.saveResult _ => true
  | _ => false

/-- Is this event a console message? -/
def isPrint : Ev → Bool
  | Ev.print _ => true
  | _ => false

/-- Is this event a model load? -/
def isLoad : Ev → Bool
  | Ev.loadModel _ => true
  | _ => false

/-!
## Concrete random sources and worlds

Used below to instantiate the theorems and to exhibit counterexamples.
-/

/-- A valid source: background `(100,100,100)`, zero noise, count draw `1`,
every square `50×50` at the origin, color index `0`, border draw `0`. -/
def trivSrc : RandSrc :=
  ⟨fun _ => 100, fun _ _ _ => 0, 1, fun _ => 50, fun _ => 0, fun _ => 0,
   fun _ => 0, fun _ => 0⟩

/-- A valid source whose first size draw is the maximal `200`. -/
def bigSrc : RandSrc :=
  ⟨fun _ => 100, fun _ _ _ => 0, 1, fun _ => 200, fun _ => 0, fun _ => 0,
   fun _ => 0, fun _ => 0⟩

/-- A second valid source drawing the maximal size `200` (background `120`,
noise `1`, color index `1`). -/
def bigSrc2 : RandSrc :=
  ⟨fun _ => 120, fun _ _ _ => 1, 1, fun _ => 200, fun _ => 0, fun _ => 0,
   fun _ => 1, fun _ => 0⟩

/-- The trivial source with all noise entries equal to `v`. -/
def noiseSrc (v : ℤ) : RandSrc :=
  ⟨fun _ => 100, fun _ _ _ => v, 1, fun _ => 50, fun _ => 0, fun _ => 0,
   fun _ => 0, fun _ => 0⟩

/-- A source agreeing with `trivSrc` on everything a `(200, some 1)` call
consumes, but differing on unconsumed entries: noise at rows `≥ 200` and
all per-shape draws with index `≥ 1`. -/
def altSrc : RandSrc :=
  ⟨fun _ => 100, fun i _ _ => if 200 ≤ i then 7 else 0, 3,
   fun k => if k = 0 then 50 else 77, fun k => if k = 0 then 0 else 3,
   fun k => if k = 0 then 0 else 3, fun k => if k = 0 then 0 else 2,
   fun k => if k = 0 then 0 else 1⟩

/-- A world in which no file exists. -/
def wAbsent : World := ⟨fun _ => false, fun _ => false, fun _ => 0, []⟩

/-- A world in which every file exists but no image decodes. -/
def wNoDecode : World := ⟨fun _ => true, fun _ => false, fun _ => 0, []⟩

/-- A world in which every file exists, every image decodes, and the
detector finds two regions / one result. -/
def wAllOk : World := ⟨fun _ => true, fun _ => true, fun _ => 2, [("a.jpg")]⟩

/-- A world in which only the model weight file exists. -/
def wModelOnly : World :=
  ⟨fun p => decide (p = ("best.pt")), fun _ => false, fun _ => 0, []⟩

/-! ## Structural lemmas about the generator -/

/-- When every drawn size fits, the loop succeeds and returns the shapes
and labels of draws `0 … n-1` in order, the canvas being the background
with the shapes composited left to right. -/
theorem genLoop_eq_of_fits (sz : ℤ) (s : RandSrc) (n : ℕ)
    (h : ∀ k, k < n → s.sizeDraw k ≤ sz) :
    genLoop sz s n =
      some (((List.range n).map (mkPlacement s)).foldl drawShape (bgCanvas s),
            (List.range n).map (mkPlacement s),
            (List.range n).map (mkLabel sz s)) := by
  induction n with
  | zero => rfl
  | succ n ih =>
    have hn : ∀ k, k < n → s.sizeDraw k ≤ sz := fun k hk => h k (Nat.lt_succ_of_lt hk)
    have hs : s.sizeDraw n ≤ sz := h n (Nat.lt_succ_self n)
    rw [genLoop, ih hn]
    simp [stepShape, hs, List.range_succ]

/-- A successful loop run means every drawn size fitted. -/
theorem genLoop_fits_of_isSome (sz : ℤ) (s : RandSrc) (n : ℕ)
    (h : (genLoop sz s n).isSome = true) : ∀ k, k < n → s.sizeDraw k ≤ sz := by
  induction n with
  | zero => intro k hk; omega
  | succ n ih =>
    intro k hk
    rw [genLoop] at h
    cases hg : genLoop sz s n with
    | none => rw [hg] at h; simp at h
    | some t =>
      rw [hg] at h
      by_cases hs : s.sizeDraw n ≤ sz
      · rcases Nat.lt_succ_iff_lt_or_eq.mp hk with h1 | h1
        · exact ih (by rw [hg]; rfl) k h1
        · exact h1 ▸ hs
      · obtain ⟨img, ps, ls⟩ := t
        simp [stepShape, hs] at h

/-- The generator, fully evaluated, on fitting draws. -/
theorem generate_eq_of_fits (sz : ℤ) (ns : Option ℕ) (s : RandSrc)
    (h : ∀ k, k < shapeCount s ns → s.sizeDraw k ≤ sz) :
    generate_red_square_image sz ns s =
      some ((((List.range (shapeCount s ns)).map (mkPlacement s)).foldl drawShape (bgCanvas s)),
            (List.range (shapeCount s ns)).map (mkPlacement s),
            (List.range (shapeCount s ns)).map (mkLabel sz s)) :=
  genLoop_eq_of_fits sz s (shapeCount s ns) h

/-- Every returned annotation is the annotation of some draw `k` whose
size fitted the canvas. -/
theorem mem_genLabels (sz : ℤ) (ns : Option ℕ) (s : RandSrc) (l : Label)
    (h : l ∈ genLabels sz ns s) :
    ∃ k, k < shapeCount s ns ∧ s.sizeDraw k ≤ sz ∧ l = mkLabel sz s k := by
  unfold genLabels at h
  cases hg : generate_red_square_image sz ns s with
  | none => rw [hg] at h; simp at h
  | some t =>
    obtain ⟨img, ps, ls⟩ := t
    rw [hg] at h
    have hfits : ∀ k, k < shapeCount s ns → s.sizeDraw k ≤ sz := by
      apply genLoop_fits_of_isSome
      have hq : genLoop sz s (shapeCount s ns) = some (img, ps, ls) := hg
      rw [hq]; rfl
    have heq := generate_eq_of_fits sz ns s hfits
    rw [hg] at heq
    have ht := Option.some.inj heq
    rw [Prod.mk.injEq, Prod.mk.injEq] at ht
    obtain ⟨-, -, hls⟩ := ht
    subst hls
    rcases List.mem_map.mp h with ⟨k, hk, rfl⟩
    exact ⟨k, List.mem_range.mp hk, hfits k (List.mem_range.mp hk), rfl⟩

/-- Every recorded shape is the shape of some draw `k` whose size fitted. -/
theorem mem_genPlacements (sz : ℤ) (ns : Option ℕ) (s : RandSrc) (p : Placement)
    (h : p ∈ genPlacements sz ns s) :
    ∃ k, k < shapeCount s ns ∧ s.sizeDraw k ≤ sz ∧ p = mkPlacement s k := by
  unfold genPlacements at h
  cases hg : generate_red_square_image sz ns s with
  | none => rw [hg] at h; simp at h
  | some t =>
    obtain ⟨img, ps, ls⟩ := t
    rw [hg] at h
    have hfits : ∀ k, k < shapeCount s ns → s.sizeDraw k ≤ sz := by
      apply genLoop_fits_of_isSome
      have hq : genLoop sz s (shapeCount s ns) = some (img, ps, ls) := hg
      rw [hq]; rfl
    have heq := generate_eq_of_fits sz ns s hfits
    rw [hg] at heq
    have ht := Option.some.inj heq
    rw [Prod.mk.injEq, Prod.mk.injEq] at ht
    obtain ⟨-, hps, -⟩ := ht
    subst hps
    rcases List.mem_map.mp h with ⟨k, hk, rfl⟩
    exact ⟨k, List.mem_range.mp hk, hfits k (List.mem_range.mp hk), rfl⟩

/-- Clamping always lands in `[0, 255]`. -/
theorem clamp255_bounds (v : ℤ) : 0 ≤ clamp255 v ∧ clamp255 v ≤ 255 := by
  unfold clamp255; omega

/-- Clamping is the identity on values already in `[0, 255]`. -/
theorem clamp255_eq_self (v : ℤ) (h0 : 0 ≤ v) (h1 : v ≤ 255) : clamp255 v = v := by
  unfold clamp255; omega

/-- Drawing a shape keeps every channel in `[0, 255]`. -/
theorem drawShape_bounds (img : Image) (p : Placement)
    (h : ∀ i j c, 0 ≤ img i j c ∧ img i j c ≤ 255) :
    ∀ i j c, 0 ≤ drawShape img p i j c ∧ drawShape img p i j c ≤ 255 := by
  intro i j c
  unfold drawShape
  split
  · exact clamp255_bounds _
  · split
    · exact clamp255_bounds _
    · exact h i j c

/-- Compositing any list of shapes keeps every channel in `[0, 255]`. -/
theorem foldl_drawShape_bounds (ps : List Placement) :
    ∀ img : Image, (∀ i j c, 0 ≤ img i j c ∧ img i j c ≤ 255) →
    ∀ i j c, 0 ≤ (ps.foldl drawShape img) i j c ∧ (ps.foldl drawShape img) i j c ≤ 255 := by
  induction ps with
  | nil => intro img h; exact h
  | cons p ps ih =>
    intro img h
    exact ih (drawShape img p) (drawShape_bounds img p h)

/-- Background channels are always in `[0, 255]` (this is the `np.clip`). -/
theorem bgCanvas_bounds (s : RandSrc) :
    ∀ i j c, 0 ≤ bgCanvas s i j c ∧ bgCanvas s i j c ≤ 255 :=
  fun _ _ _ => clamp255_bounds _

/-- Every channel of the returned canvas is in `[0, 255]`. -/
theorem genImage_bounds (sz : ℤ) (ns : Option ℕ) (s : RandSrc) :
    ∀ i j c, 0 ≤ genImage sz ns s i j c ∧ genImage sz ns s i j c ≤ 255 := by
  intro i j c
  unfold genImage
  cases hg : generate_red_square_image sz ns s with
  | none => norm_num
  | some t =>
    obtain ⟨img, ps, ls⟩ := t
    have hfits : ∀ k, k < shapeCount s ns → s.sizeDraw k ≤ sz := by
      apply genLoop_fits_of_isSome
      have hq : genLoop sz s (shapeCount s ns) = some (img, ps, ls) := hg
      rw [hq]; rfl
    have heq := generate_eq_of_fits sz ns s hfits
    rw [hg] at heq
    have ht := Option.some.inj heq
    rw [Prod.mk.injEq, Prod.mk.injEq] at ht
    obtain ⟨himg, -, -⟩ := ht
    rw [himg]
    exact foldl_drawShape_bounds _ (bgCanvas s) (bgCanvas_bounds s) i j c

/-- Numeric bounds of the annotation of draw `k`, for a valid source and a
fitting size. -/
theorem mkLabel_bounds (sz : ℤ) (s : RandSrc) (k : ℕ)
    (hv : SrcValid sz s) (hfit : s.sizeDraw k ≤ sz) :
    (mkLabel sz s k).classId = 0 ∧
    0 < (mkLabel sz s k).cx ∧ (mkLabel sz s k).cx < 1 ∧
    0 < (mkLabel sz s k).cy ∧ (mkLabel sz s k).cy < 1 ∧
    (mkLabel sz s k).w = (mkLabel sz s k).h ∧
    0 < (mkLabel sz s k).w ∧ (mkLabel sz s k).w ≤ 200 / (sz : ℚ) := by
  obtain ⟨-, -, -, -, -, hsize, hx, hy, -, -⟩ := hv
  obtain ⟨h50, h200⟩ := hsize k
  obtain ⟨hx0, hx1⟩ := hx k hfit
  obtain ⟨hy0, hy1⟩ := hy k hfit
  have hszZ : (50 : ℤ) ≤ sz := le_trans h50 hfit
  have hszQ : (0 : ℚ) < (sz : ℚ) := by exact_mod_cast (by omega : (0 : ℤ) < sz)
  have hsQ : (50 : ℚ) ≤ (s.sizeDraw k : ℚ) := by exact_mod_cast h50
  have hsQ2 : (s.sizeDraw k : ℚ) ≤ 200 := by exact_mod_cast h200
  have hxQ0 : (0 : ℚ) ≤ (s.xDraw k : ℚ) := by exact_mod_cast hx0
  have hxQ1 : (s.xDraw k : ℚ) ≤ (sz : ℚ) - (s.sizeDraw k : ℚ) := by exact_mod_cast hx1
  have hyQ0 : (0 : ℚ) ≤ (s.yDraw k : ℚ) := by exact_mod_cast hy0
  have hyQ1 : (s.yDraw k : ℚ) ≤ (sz : ℚ) - (s.sizeDraw k : ℚ) := by exact_mod_cast hy1
  dsimp only [mkLabel]
  refine ⟨rfl, ?_, ?_, ?_, ?_, rfl, ?_, ?_⟩
  · exact div_pos (by linarith) hszQ
  · exact (div_lt_one hszQ).mpr (by linarith)
  · exact div_pos (by linarith) hszQ
  · exact (div_lt_one hszQ).mpr (by linarith)
  · exact div_pos (by linarith) hszQ
  · exact (div_le_div_right hszQ).mpr (by linarith)

/-- Geometric bounds of the shape of draw `k`: the size range and the
containment of `[origin, origin + size]` in `[0, sz]` on both axes. -/
theorem mkPlacement_bounds (sz : ℤ) (s : RandSrc) (k : ℕ)
    (hv : SrcValid sz s) (hfit : s.sizeDraw k ≤ sz) :
    50 ≤ (mkPlacement s k).size ∧ (mkPlacement s k).size ≤ 200 ∧
    0 ≤ (mkPlacement s k).x ∧ (mkPlacement s k).x + (mkPlacement s k).size ≤ sz ∧
    0 ≤ (mkPlacement s k).y ∧ (mkPlacement s k).y + (mkPlacement s k).size ≤ sz := by
  obtain ⟨-, -, -, -, -, hsize, hx, hy, -, -⟩ := hv
  obtain ⟨h50, h200⟩ := hsize k
  obtain ⟨hx0, hx1⟩ := hx k hfit
  obtain ⟨hy0, hy1⟩ := hy k hfit
  dsimp only [mkPlacement]
  exact ⟨h50, h200, hx0, by omega, hy0, by omega⟩

/-- The trivial source is valid for any canvas of side at least `50`. -/
theorem trivSrc_valid (sz : ℤ) (h : 50 ≤ sz) : SrcValid sz trivSrc := by
  unfold SrcValid trivSrc
  refine ⟨⟨by norm_num, by norm_num⟩, ⟨by norm_num, by norm_num⟩,
    ⟨by norm_num, by norm_num⟩, fun i j c => ⟨by norm_num, by norm_num⟩,
    ⟨by norm_num, by norm_num⟩, fun k => ⟨by norm_num, by norm_num⟩,
    fun k hk => ⟨le_refl 0, by simpa using hk⟩,
    fun k hk => ⟨le_refl 0, by simpa using hk⟩,
    fun k => by norm_num, fun k => ⟨le_refl 0, by norm_num⟩⟩

/-! ## Frame lemmas: the output depends only on the consumed draws -/

/-- Compositing the same shapes preserves pointwise agreement of canvases. -/
theorem foldl_drawShape_congr (ps : List Placement) (i j : ℤ) (c : Fin 3) :
    ∀ img1 img2 : Image, img1 i j c = img2 i j c →
      (ps.foldl drawShape img1) i j c = (ps.foldl drawShape img2) i j c := by
  induction ps with
  | nil => intro img1 img2 h; exact h
  | cons p ps ih =>
    intro img1 img2 h
    apply ih
    show drawShape img1 p i j c = drawShape img2 p i j c
    unfold drawShape
    split
    · rfl
    · split
      · rfl
      · exact h

/-- Two sources agreeing on the draws of shape `k` produce the same shape. -/
theorem mkPlacement_congr (s1 s2 : RandSrc) (k : ℕ)
    (hs : s1.sizeDraw k = s2.sizeDraw k) (hx : s1.xDraw k = s2.xDraw k)
    (hy : s1.yDraw k = s2.yDraw k) (hc : s1.colorDraw k = s2.colorDraw k)
    (hb : s1.borderDraw k = s2.borderDraw k) :
    mkPlacement s1 k = mkPlacement s2 k := by
  unfold mkPlacement
  rw [hs, hx, hy, hc, hb]

/-- Two sources agreeing on the draws of shape `k` produce the same label. -/
theorem mkLabel_congr (sz : ℤ) (s1 s2 : RandSrc) (k : ℕ)
    (hs : s1.sizeDraw k = s2.sizeDraw k) (hx : s1.xDraw k = s2.xDraw k)
    (hy : s1.yDraw k = s2.yDraw k) :
    mkLabel sz s1 k = mkLabel sz s2 k := by
  unfold mkLabel
  rw [hs, hx, hy]

/-- Success of the loop depends only on the first `n` size draws. -/
theorem genLoop_isSome_iff (sz : ℤ) (s : RandSrc) (n : ℕ) :
    (genLoop sz s n).isSome = true ↔ ∀ k, k < n → s.sizeDraw k ≤ sz := by
  constructor
  · exact genLoop_fits_of_isSome sz s n
  · intro h
    rw [genLoop_eq_of_fits sz s n h]
    rfl

/-! ## Round-trip lemmas for the annotation text format -/

/-- Parsing processes an append in two stages. -/
theorem parseNatAux_append (ys : List Char) :
    ∀ (xs : List Char) (acc : ℕ),
      parseNatAux acc (xs ++ ys) = (parseNatAux acc xs).bind (fun a => parseNatAux a ys) := by
  intro xs
  induction xs with
  | nil => intro acc; simp [parseNatAux]
  | cons c rest ih =>
    intro acc
    by_cases hc : isDigitCh c = true
    · simp [parseNatAux, hc, ih]
    · simp [parseNatAux, hc]

/-- Digit characters are digits. -/
theorem isDigitCh_digitCh (d : ℕ) (h : d < 10) : isDigitCh (digitCh d) = true := by
  interval_cases d <;> decide

/-- The numeric value of the digit character of `d`. -/
theorem digitVal_digitCh (d : ℕ) (h : d < 10) : digitVal (digitCh d) = d := by
  interval_cases d <;> decide

/-- Every character of `digitsOfNat n` is a digit. -/
theorem digitsOfNat_all_digits : ∀ n : ℕ, ∀ c ∈ digitsOfNat n, isDigitCh c = true := by
  intro n
  induction n using Nat.strong_induction_on with
  | _ n ih =>
    intro c hc
    by_cases h : n = 0
    · subst h
      rw [digitsOfNat] at hc
      simp at hc
    · rw [digitsOfNat, dif_neg h] at hc
      rcases List.mem_append.mp hc with h1 | h1
      · exact ih (n / 10) (Nat.div_lt_self (Nat.pos_of_ne_zero h) (by norm_num)) c h1
      · rw [List.mem_singleton] at h1
        subst h1
        exact isDigitCh_digitCh _ (Nat.mod_lt n (by norm_num))

/-- Parsing the digits of `n` after an accumulator shifts the accumulator
past them and adds `n`. -/
theorem parseNatAux_digitsOfNat : ∀ n : ℕ, ∀ acc : ℕ,
    parseNatAux acc (digitsOfNat n) = some (acc * 10 ^ (digitsOfNat n).length + n) := by
  intro n
  induction n using Nat.strong_induction_on with
  | _ n ih =>
    intro acc
    by_cases h : n = 0
    · subst h
      rw [digitsOfNat]
      simp [parseNatAux]
    · rw [digitsOfNat, dif_neg h, parseNatAux_append,
        ih (n / 10) (Nat.div_lt_self (Nat.pos_of_ne_zero h) (by norm_num)) acc]
      have hd : n % 10 < 10 := Nat.mod_lt n (by norm_num)
      simp only [Option.some_bind, parseNatAux, if_pos (isDigitCh_digitCh _ hd),
        digitVal_digitCh _ hd]
      congr 1
      rw [List.length_append, List.length_singleton]
      calc (acc * 10 ^ (digitsOfNat (n / 10)).length + n / 10) * 10 + n % 10
          = acc * (10 ^ (digitsOfNat (n / 10)).length * 10) + (10 * (n / 10) + n % 10) := by
            ring
        _ = acc * 10 ^ ((digitsOfNat (n / 10)).length + 1) + n := by
            rw [← pow_succ, Nat.div_add_mod]

/-- The digits of a nonzero number form a nonempty list. -/
theorem digitsOfNat_ne_nil (n : ℕ) (h : n ≠ 0) : digitsOfNat n ≠ [] := by
  rw [digitsOfNat, dif_neg h]
  simp

/-- Rendering then parsing a natural number is the identity. -/
theorem parseNatChars_renderNat (n : ℕ) : parseNatChars (renderNat n) = some n := by
  by_cases h : n = 0
  · subst h; decide
  · unfold renderNat
    rw [if_neg h]
    unfold parseNatChars
    rw [if_neg (by simpa using digitsOfNat_ne_nil n h)]
    rw [parseNatAux_digitsOfNat n 0]
    simp

/-- A number below `10^k` has at most `k` digits. -/
theorem digitsOfNat_length_le : ∀ k n : ℕ, n < 10 ^ k → (digitsOfNat n).length ≤ k := by
  intro k
  induction k with
  | zero =>
    intro n hn
    have : n = 0 := by omega
    subst this
    rw [digitsOfNat]
    simp
  | succ k ih =>
    intro n hn
    by_cases h : n = 0
    · subst h
      rw [digitsOfNat]
      simp
    · rw [digitsOfNat, dif_neg h]
      rw [List.length_append, List.length_singleton]
      have hdiv : n / 10 < 10 ^ k := by
        rw [Nat.div_lt_iff_lt_mul (by norm_num : 0 < 10)]
        rw [← pow_succ]
        exact hn
      have := ih (n / 10) hdiv
      omega

/-- The padded fraction block always has exactly six characters. -/
theorem fracChars_length (f : ℕ) (h : f < 1000000) : (fracChars f).length = 6 := by
  unfold fracChars
  rw [List.length_append, List.length_replicate]
  have : (digitsOfNat f).length ≤ 6 :=
    digitsOfNat_length_le 6 f (by norm_num at h ⊢; exact h)
  omega

/-- Leading zero padding does not change the parsed value of a zero
accumulator. -/
theorem parseNatAux_replicate_zero :
    ∀ k : ℕ, ∀ ys : List Char,
      parseNatAux 0 (List.replicate k (digitCh 0) ++ ys) = parseNatAux 0 ys := by
  intro k
  induction k with
  | zero => intro ys; rfl
  | succ k ih =>
    intro ys
    rw [List.replicate_succ, List.cons_append]
    show parseNatAux 0 (digitCh 0 :: (List.replicate k (digitCh 0) ++ ys)) = _
    rw [parseNatAux, if_pos (by decide), digitVal_digitCh 0 (by norm_num)]
    simpa using ih ys

/-- Parsing the padded fraction block recovers the fraction. -/
theorem parseNatChars_fracChars (f : ℕ) (h : f < 1000000) :
    parseNatChars (fracChars f) = some f := by
  unfold parseNatChars
  have hlen : (fracChars f).length = 6 := fracChars_length f h
  rw [if_neg (by
    intro hemp
    rw [List.isEmpty_iff] at hemp
    rw [hemp] at hlen
    simp at hlen)]
  unfold fracChars
  rw [parseNatAux_replicate_zero, parseNatAux_digitsOfNat]
  simp

/-- Every character of the padded fraction block is a digit. -/
theorem fracChars_all_digits (f : ℕ) : ∀ c ∈ fracChars f, isDigitCh c = true := by
  intro c hc
  rcases List.mem_append.mp hc with h1 | h1
  · rw [List.eq_of_mem_replicate h1]
    decide
  · exact digitsOfNat_all_digits f c h1

/-- Every character of `renderNat n` is a digit. -/
theorem renderNat_all_digits (n : ℕ) : ∀ c ∈ renderNat n, isDigitCh c = true := by
  intro c hc
  unfold renderNat at hc
  by_cases h : n = 0
  · rw [if_pos h, List.mem_singleton] at hc
    subst hc
    decide
  · rw [if_neg h] at hc
    exact digitsOfNat_all_digits n c hc

/-- Every character of `fmt6 q` is a digit or the decimal point. -/
theorem fmt6_chars (q : ℚ) : ∀ c ∈ fmt6 q, isDigitCh c = true ∨ c = '.' := by
  intro c hc
  unfold fmt6 at hc
  rcases List.mem_append.mp hc with h1 | h1
  · exact Or.inl (renderNat_all_digits _ c h1)
  · rcases List.mem_cons.mp h1 with h2 | h2
    · exact Or.inr h2
    · exact Or.inl (fracChars_all_digits _ c h2)

/-- Splitting a list without the separator gives one segment. -/
theorem splitOnCh_of_not_mem (c : Char) (xs : List Char) (h : c ∉ xs) :
    splitOnCh c xs = [xs] := by
  induction xs with
  | nil => rfl
  | cons a rest ih =>
    have ha : ¬ a = c := fun hh => h (hh ▸ List.mem_cons_self a rest)
    have hr : c ∉ rest := fun hh => h (List.mem_cons_of_mem a hh)
    rw [splitOnCh, if_neg ha, ih hr]

/-- Splitting at the first separator occurrence peels off the first
segment. -/
theorem splitOnCh_append (c : Char) (xs ys : List Char) (h : c ∉ xs) :
    splitOnCh c (xs ++ c :: ys) = xs :: splitOnCh c ys := by
  induction xs with
  | nil =>
    show splitOnCh c (c :: ys) = [] :: splitOnCh c ys
    rw [splitOnCh, if_pos rfl]
  | cons a rest ih =>
    have ha : ¬ a = c := fun hh => h (hh ▸ List.mem_cons_self a rest)
    have hr : c ∉ rest := fun hh => h (List.mem_cons_of_mem a hh)
    rw [List.cons_append, splitOnCh, if_neg ha, ih hr]

/-- Splitting never returns the empty list of segments. -/
theorem splitOnCh_ne_nil (c : Char) (xs : List Char) : splitOnCh c xs ≠ [] := by
  induction xs with
  | nil => simp [splitOnCh]
  | cons a rest ih =>
    rw [splitOnCh]
    split
    · simp
    · split
      · simp
      · simp

/-- The decimal point appears nowhere in a rendered integer. -/
theorem dot_not_mem_renderNat (n : ℕ) : '.' ∉ renderNat n := by
  intro h
  have := renderNat_all_digits n _ h
  simp [isDigitCh] at this

/-- The decimal point appears nowhere in the fraction block. -/
theorem dot_not_mem_fracChars (f : ℕ) : '.' ∉ fracChars f := by
  intro h
  have := fracChars_all_digits f _ h
  simp [isDigitCh] at this

/-- The space character appears nowhere in a fixed-point token. -/
theorem space_not_mem_fmt6 (q : ℚ) : ' ' ∉ fmt6 q := by
  intro h
  rcases fmt6_chars q _ h with h1 | h1
  · simp [isDigitCh] at h1
  · simp at h1

/-- The space character appears nowhere in a rendered integer. -/
theorem space_not_mem_renderNat (n : ℕ) : ' ' ∉ renderNat n := by
  intro h
  have := renderNat_all_digits n _ h
  simp [isDigitCh] at this

/-- Parsing the rendering of `q` yields exactly the rounded value the
rendering denotes. -/
theorem parseFixed_fmt6 (q : ℚ) : parseFixed (fmt6 q) = some (val6 q) := by
  have hmod : round6 q % 1000000 < 1000000 := Nat.mod_lt _ (by norm_num)
  unfold fmt6 parseFixed
  rw [splitOnCh_append '.' _ _ (dot_not_mem_renderNat _),
    splitOnCh_of_not_mem '.' _ (dot_not_mem_fracChars _)]
  simp only [parseNatChars_renderNat, parseNatChars_fracChars _ hmod]
  rw [fracChars_length _ hmod]
  congr 1
  unfold val6
  have hdm : 1000000 * (round6 q / 1000000) + round6 q % 1000000 = round6 q :=
    Nat.div_add_mod (round6 q) 1000000
  have hQ : 1000000 * ((round6 q / 1000000 : ℕ) : ℚ) + ((round6 q % 1000000 : ℕ) : ℚ)
      = ((round6 q : ℕ) : ℚ) := by exact_mod_cast hdm
  have hpow : ((10 : ℚ) ^ (6 : ℕ)) = 1000000 := by norm_num
  rw [hpow]
  field_simp
  linarith [hQ]

/-- Writing one label line and parsing it back yields the label with every
coordinate replaced by its rounded value. -/
theorem parseLabelLine_writeLabelLine (l : Label) :
    parseLabelLine (writeLabelLine l) = some (roundLabel l) := by
  unfold writeLabelLine parseLabelLine
  simp only [List.append_assoc, List.cons_append]
  rw [splitOnCh_append ' ' _ _ (space_not_mem_renderNat _),
    splitOnCh_append ' ' _ _ (space_not_mem_fmt6 _),
    splitOnCh_append ' ' _ _ (space_not_mem_fmt6 _),
    splitOnCh_append ' ' _ _ (space_not_mem_fmt6 _),
    splitOnCh_of_not_mem ' ' _ (space_not_mem_fmt6 _)]
  simp only [parseNatChars_renderNat, parseFixed_fmt6]
  rfl

/-- Dropping the last element of a cons with nonempty tail. -/
theorem dropLast_cons_ne_nil {α : Type} (a : α) (xs : List α) (h : xs ≠ []) :
    (a :: xs).dropLast = a :: xs.dropLast := by
  cases xs with
  | nil => exact absurd rfl h
  | cons b t => rfl

/-- Every character of a label line is a digit, the decimal point, or the
separating space. -/
theorem writeLabelLine_chars (l : Label) :
    ∀ c ∈ writeLabelLine l, isDigitCh c = true ∨ c = '.' ∨ c = ' ' := by
  intro c hc
  unfold writeLabelLine at hc
  simp only [List.mem_append, List.mem_cons] at hc
  rcases hc with ((((h | h | h) | h | h) | h | h) | h | h)
  · exact Or.inl (renderNat_all_digits _ _ h)
  · exact Or.inr (Or.inr h)
  · rcases fmt6_chars _ _ h with h1 | h1
    · exact Or.inl h1
    · exact Or.inr (Or.inl h1)
  · exact Or.inr (Or.inr h)
  · rcases fmt6_chars _ _ h with h1 | h1
    · exact Or.inl h1
    · exact Or.inr (Or.inl h1)
  · exact Or.inr (Or.inr h)
  · rcases fmt6_chars _ _ h with h1 | h1
    · exact Or.inl h1
    · exact Or.inr (Or.inl h1)
  · exact Or.inr (Or.inr h)
  · rcases fmt6_chars _ _ h with h1 | h1
    · exact Or.inl h1
    · exact Or.inr (Or.inl h1)

/-- The newline character appears nowhere in a label line. -/
theorem nl_not_mem_writeLabelLine (l : Label) : nlCh ∉ writeLabelLine l := by
  intro h
  rcases writeLabelLine_chars l _ h with h1 | h1 | h1
  · exact absurd h1 (by decide)
  · exact absurd h1 (by decide)
  · exact absurd h1 (by decide)

/-- Writing a label file and parsing it back yields the rounded labels. -/
theorem parseLabelFile_writeLabelFile (ls : List Label) :
    parseLabelFile (writeLabelFile ls) = some (ls.map roundLabel) := by
  unfold parseLabelFile
  induction ls with
  | nil => rfl
  | cons l rest ih =>
    rw [writeLabelFile]
    rw [splitOnCh_append nlCh _ _ (nl_not_mem_writeLabelLine l)]
    rw [dropLast_cons_ne_nil _ _ (splitOnCh_ne_nil nlCh _)]
    rw [parseLines, parseLabelLine_writeLabelLine, ih]
    rfl

/-- For a nonnegative value, the rounded-back value agrees with the
original to 6-decimal precision. -/
theorem round_val6 (q : ℚ) (h : 0 ≤ q) : round (val6 q * 1000000) = round (q * 1000000) := by
  have h1 : (0 : ℤ) ≤ round (q * 1000000) := by
    rw [round_eq]
    apply Int.floor_nonneg.mpr
    positivity
  unfold val6 round6
  have h2 : (((round (q * 1000000)).toNat : ℕ) : ℚ) = ((round (q * 1000000) : ℤ) : ℚ) := by
    exact_mod_cast Int.toNat_of_nonneg h1
  rw [h2]
  have h3 : ((round (q * 1000000) : ℤ) : ℚ) / 1000000 * 1000000
      = ((round (q * 1000000) : ℤ) : ℚ) := by
    field_simp
  rw [h3, round_intCast]

/-- Agreement to 6 decimals holds between the rounded-back value and the original. -/
theorem eq6_val6 (q : ℚ) (h : 0 ≤ q) : eq6 (val6 q) q := round_val6 q h

/-- Sources with constant noise `v` in `[-30, 29]` are valid. -/
theorem noiseSrc_valid (v : ℤ) (h1 : -30 ≤ v) (h2 : v ≤ 29) (sz : ℤ) (h : 50 ≤ sz) :
    SrcValid sz (noiseSrc v) := by
  unfold SrcValid noiseSrc
  refine ⟨⟨by norm_num, by norm_num⟩, ⟨by norm_num, by norm_num⟩,
    ⟨by norm_num, by norm_num⟩, fun i j c => ⟨h1, h2⟩,
    ⟨by norm_num, by norm_num⟩, fun k => ⟨by norm_num, by norm_num⟩,
    fun k hk => ⟨le_refl 0, by simpa using hk⟩,
    fun k hk => ⟨le_refl 0, by simpa using hk⟩,
    fun k => by norm_num, fun k => ⟨le_refl 0, by norm_num⟩⟩

/-- The max-size source is valid for any canvas of side at least `50`
(origin constraints are vacuous when the size draw exceeds the canvas). -/
theorem bigSrc_valid (sz : ℤ) (h : 50 ≤ sz) : SrcValid sz bigSrc := by
  unfold SrcValid bigSrc
  refine ⟨⟨by norm_num, by norm_num⟩, ⟨by norm_num, by norm_num⟩,
    ⟨by norm_num, by norm_num⟩, fun i j c => ⟨by norm_num, by norm_num⟩,
    ⟨by norm_num, by norm_num⟩, fun k => ⟨by norm_num, by norm_num⟩,
    fun k hk => ⟨le_refl 0, by
      have hk2 : (200 : ℤ) ≤ sz := hk
      show (0 : ℤ) ≤ sz - 200
      omega⟩,
    fun k hk => ⟨le_refl 0, by
      have hk2 : (200 : ℤ) ≤ sz := hk
      show (0 : ℤ) ≤ sz - 200
      omega⟩,
    fun k => by norm_num, fun k => ⟨le_refl 0, by norm_num⟩⟩

/-- The second max-size source is valid for any canvas of side at least `50`. -/
theorem bigSrc2_valid (sz : ℤ) (h : 50 ≤ sz) : SrcValid sz bigSrc2 := by
  unfold SrcValid bigSrc2
  refine ⟨⟨by norm_num, by norm_num⟩, ⟨by norm_num, by norm_num⟩,
    ⟨by norm_num, by norm_num⟩, fun i j c => ⟨by norm_num, by norm_num⟩,
    ⟨by norm_num, by norm_num⟩, fun k => ⟨by norm_num, by norm_num⟩,
    fun k hk => ⟨le_refl 0, by
      have hk2 : (200 : ℤ) ≤ sz := hk
      show (0 : ℤ) ≤ sz - 200
      omega⟩,
    fun k hk => ⟨le_refl 0, by
      have hk2 : (200 : ℤ) ≤ sz := hk
      show (0 : ℤ) ≤ sz - 200
      omega⟩,
    fun k => by norm_num, fun k => ⟨le_refl 0, by norm_num⟩⟩

/-! ## Claim C1 -/

/-- C1, counterexample: at `imgSize = 50` — a valid input per the claim — a
valid random source can draw `square_size = 200`, upon which
`random.randint(0, 50 - 200)` raises `ValueError`: the call returns
nothing. -/
theorem C1_counterexample :
    SrcValid 50 bigSrc ∧ generate_red_square_image 50 (some 1) bigSrc = none :=
  ⟨bigSrc_valid 50 (by norm_num), rfl⟩

/-- C1 (amended): for every `imgSize ≥ 200`, every shape count (omitted or
any `n ≥ 0`) and every valid random source, `generate_red_square_image`
never raises: it returns a canvas and an annotation sequence. -/
theorem C1_amended_theorem (sz : ℤ) (ns : Option ℕ) (s : RandSrc)
    (hsz : 200 ≤ sz) (hv : SrcValid sz s) :
    ∃ img ps ls, generate_red_square_image sz ns s = some (img, ps, ls) := by
  obtain ⟨-, -, -, -, -, hsize, -, -, -, -⟩ := hv
  exact ⟨_, _, _, generate_eq_of_fits sz ns s (fun k _ => le_trans (hsize k).2 hsz)⟩

/-- C1 witness: a concrete `imgSize = 200` call with an explicit count. -/
theorem C1_witness :
    SrcValid 200 trivSrc ∧
    ∃ img ps ls, generate_red_square_image 200 (some 2) trivSrc = some (img, ps, ls) :=
  ⟨trivSrc_valid 200 (by norm_num),
   C1_amended_theorem 200 (some 2) trivSrc (le_refl 200) (trivSrc_valid 200 (by norm_num))⟩

/-! ## Claim C2 -/

/-- C2, counterexample: at `imgSize = 50` with `shapeCount = 1` a valid
source can make the call raise, so no annotation list (of length 1 or any
other) is returned. -/
theorem C2_counterexample :
    SrcValid 50 bigSrc2 ∧ generate_red_square_image 50 (some 1) bigSrc2 = none ∧
    genLabels 50 (some 1) bigSrc2 = [] :=
  ⟨bigSrc2_valid 50 (by norm_num), rfl, rfl⟩

/-- C2 (amended): for `imgSize ≥ 200`, an explicit `shapeCount = n` yields
exactly `n` annotations (`0` yields the empty sequence), and an omitted
count yields exactly as many annotations as the `randint(1, 3)` draw,
which lies in `{1, 2, 3}`. -/
theorem C2_amended_theorem (sz : ℤ) (s : RandSrc)
    (hsz : 200 ≤ sz) (hv : SrcValid sz s) :
    (∀ n : ℕ, (genLabels sz (some n) s).length = n) ∧
    (genLabels sz none s).length = s.countDraw.toNat ∧
    1 ≤ (genLabels sz none s).length ∧ (genLabels sz none s).length ≤ 3 := by
  obtain ⟨-, -, -, -, hcount, hsize, -, -, -, -⟩ := hv
  have hlab : ∀ ns : Option ℕ,
      genLabels sz ns s = (List.range (shapeCount s ns)).map (mkLabel sz s) := by
    intro ns
    unfold genLabels
    rw [generate_eq_of_fits sz ns s (fun k _ => le_trans (hsize k).2 hsz)]
  refine ⟨fun n => ?_, ?_, ?_, ?_⟩
  · rw [hlab (some n)]
    simp [shapeCount]
  · rw [hlab none]
    simp [shapeCount]
  · rw [hlab none]
    simp only [List.length_map, List.length_range, shapeCount]
    omega
  · rw [hlab none]
    simp only [List.length_map, List.length_range, shapeCount]
    omega

/-- C2 witness: concrete counts at `imgSize = 200`. -/
theorem C2_witness :
    SrcValid 200 trivSrc ∧
    (∀ n : ℕ, (genLabels 200 (some n) trivSrc).length = n) ∧
    (genLabels 200 none trivSrc).length = Int.toNat trivSrc.countDraw ∧
    1 ≤ (genLabels 200 none trivSrc).length ∧ (genLabels 200 none trivSrc).length ≤ 3 :=
  ⟨trivSrc_valid 200 (by norm_num),
   C2_amended_theorem 200 trivSrc (le_refl 200) (trivSrc_valid 200 (by norm_num))⟩

/-! ## Claim C3 -/

/-- C3: every returned annotation has `classId = 0`, strictly interior
normalized center coordinates, equal width and height, and
`0 < boxWidth ≤ 200 / imgSize`. -/
theorem C3_theorem (sz : ℤ) (ns : Option ℕ) (s : RandSrc) (hv : SrcValid sz s) :
    ∀ l ∈ genLabels sz ns s,
      l.classId = 0 ∧ 0 < l.cx ∧ l.cx < 1 ∧ 0 < l.cy ∧ l.cy < 1 ∧
      l.w = l.h ∧ 0 < l.w ∧ l.w ≤ 200 / (sz : ℚ) := by
  intro l hl
  obtain ⟨k, hk, hfit, rfl⟩ := mem_genLabels sz ns s l hl
  exact mkLabel_bounds sz s k hv hfit

/-- C3 witness: the concrete annotation of a `(200, 1)` call. -/
theorem C3_witness :
    SrcValid 200 trivSrc ∧
    genLabels 200 (some 1) trivSrc = [⟨0, 1 / 8, 1 / 8, 1 / 4, 1 / 4⟩] ∧
    ∀ l ∈ genLabels 200 (some 1) trivSrc,
      l.classId = 0 ∧ 0 < l.cx ∧ l.cx < 1 ∧ 0 < l.cy ∧ l.cy < 1 ∧
      l.w = l.h ∧ 0 < l.w ∧ l.w ≤ 200 / ((200 : ℤ) : ℚ) := by
  refine ⟨trivSrc_valid 200 (by norm_num), ?_,
    C3_theorem 200 (some 1) trivSrc (trivSrc_valid 200 (by norm_num))⟩
  have hfit : ∀ k, k < shapeCount trivSrc (some 1) → trivSrc.sizeDraw k ≤ 200 := by
    intro k hk
    show (50 : ℤ) ≤ 200
    norm_num
  unfold genLabels
  rw [generate_eq_of_fits 200 (some 1) trivSrc hfit]
  show (List.range 1).map (mkLabel 200 trivSrc) = _
  simp only [List.range_succ, List.range_zero, List.nil_append, List.map_cons, List.map_nil]
  norm_num [mkLabel, trivSrc]

/-! ## Claim C4 -/

/-- C4: every drawn shape has its size in `[50, 200]`, its origin drawn
from `[0, imgSize - size]`, and its pixel bounding box
`[origin, origin + size]` inside `[0, imgSize]` on both axes. -/
theorem C4_theorem (sz : ℤ) (ns : Option ℕ) (s : RandSrc) (hv : SrcValid sz s) :
    ∀ p ∈ genPlacements sz ns s,
      50 ≤ p.size ∧ p.size ≤ 200 ∧
      0 ≤ p.x ∧ p.x + p.size ≤ sz ∧ 0 ≤ p.y ∧ p.y + p.size ≤ sz := by
  intro p hp
  obtain ⟨k, hk, hfit, rfl⟩ := mem_genPlacements sz ns s p hp
  exact mkPlacement_bounds sz s k hv hfit

/-- C4 witness: the concrete shape of a `(200, 1)` call. -/
theorem C4_witness :
    SrcValid 200 trivSrc ∧
    genPlacements 200 (some 1) trivSrc = [⟨0, 0, 50, [30, 30, 255], false⟩] ∧
    ∀ p ∈ genPlacements 200 (some 1) trivSrc,
      50 ≤ p.size ∧ p.size ≤ 200 ∧
      0 ≤ p.x ∧ p.x + p.size ≤ 200 ∧ 0 ≤ p.y ∧ p.y + p.size ≤ 200 := by
  refine ⟨trivSrc_valid 200 (by norm_num), ?_,
    C4_theorem 200 (some 1) trivSrc (trivSrc_valid 200 (by norm_num))⟩
  have hfit : ∀ k, k < shapeCount trivSrc (some 1) → trivSrc.sizeDraw k ≤ 200 := by
    intro k hk
    show (50 : ℤ) ≤ 200
    norm_num
  unfold genPlacements
  rw [generate_eq_of_fits 200 (some 1) trivSrc hfit]
  show (List.range 1).map (mkPlacement trivSrc) = _
  simp only [List.range_succ, List.range_zero, List.nil_append, List.map_cons, List.map_nil]
  norm_num [mkPlacement, trivSrc, red_variations]

/-! ## Claim C5 -/

/-- C5, counterexample: a per-pixel noise value of `30` is impossible —
`np.random.randint(-30, 30)` excludes its upper bound — while `29` is
possible: the same source with all noise entries `29` is valid and with
all entries `30` is not. -/
theorem C5_counterexample :
    SrcValid 640 (noiseSrc 29) ∧ ¬ SrcValid 640 (noiseSrc 30) := by
  refine ⟨noiseSrc_valid 29 (by norm_num) (by norm_num) 640 (by norm_num), ?_⟩
  intro hv
  obtain ⟨-, -, -, hnoise, -, -, -, -, -, -⟩ := hv
  have h := (hnoise 0 0 0).2
  have h30 : (noiseSrc 30).noise 0 0 0 = 30 := rfl
  rw [h30] at h
  norm_num at h

/-- C5 (amended): the background is the drawn color plus per-pixel noise
drawn uniformly from `[-30, 29]` (numpy's upper bound is exclusive),
saturated into `[0, 255]`; every channel of every returned canvas is an
integer in `[0, 255]`. -/
theorem C5_amended_theorem (sz : ℤ) (ns : Option ℕ) (s : RandSrc) (hv : SrcValid sz s) :
    (∀ i j c, -30 ≤ s.noise i j c ∧ s.noise i j c ≤ 29) ∧
    genImage sz (some 0) s = bgCanvas s ∧
    (∀ i j c, 0 ≤ genImage sz ns s i j c ∧ genImage sz ns s i j c ≤ 255) := by
  obtain ⟨-, -, -, hnoise, -, -, -, -, -, -⟩ := hv
  exact ⟨hnoise, rfl, genImage_bounds sz ns s⟩

/-- C5 witness: the theorem applied at a concrete valid source, plus the
concrete value of one background pixel (`clamp255 (100 + 29) = 129`). -/
theorem C5_witness :
    SrcValid 640 (noiseSrc 29) ∧
    ((∀ i j c, -30 ≤ (noiseSrc 29).noise i j c ∧ (noiseSrc 29).noise i j c ≤ 29) ∧
      genImage 640 (some 0) (noiseSrc 29) = bgCanvas (noiseSrc 29) ∧
      (∀ i j c, 0 ≤ genImage 640 (some 1) (noiseSrc 29) i j c ∧
        genImage 640 (some 1) (noiseSrc 29) i j c ≤ 255)) ∧
    bgCanvas (noiseSrc 29) 0 0 0 = 129 :=
  ⟨noiseSrc_valid 29 (by norm_num) (by norm_num) 640 (by norm_num),
   C5_amended_theorem 640 (some 1) (noiseSrc 29)
     (noiseSrc_valid 29 (by norm_num) (by norm_num) 640 (by norm_num)),
   by decide⟩

/-! ## Claim C6 -/

/-- The pointwise 6-decimal agreement of the rounded-back labels. -/
theorem forall2_roundLabel (ls : List Label)
    (h : ∀ l ∈ ls, 0 ≤ l.cx ∧ 0 ≤ l.cy ∧ 0 ≤ l.w ∧ 0 ≤ l.h) :
    List.Forall₂ (fun p l => p.classId = l.classId ∧ eq6 p.cx l.cx ∧ eq6 p.cy l.cy ∧
      eq6 p.w l.w ∧ eq6 p.h l.h) (ls.map roundLabel) ls := by
  induction ls with
  | nil => exact List.Forall₂.nil
  | cons l rest ih =>
    obtain ⟨h1, h2, h3, h4⟩ := h l (List.mem_cons_self l rest)
    exact List.Forall₂.cons
      ⟨rfl, eq6_val6 _ h1, eq6_val6 _ h2, eq6_val6 _ h3, eq6_val6 _ h4⟩
      (ih (fun x hx => h x (List.mem_cons_of_mem l hx)))

/-- C6: writing an annotation sequence in the `classId cx cy w h` text
format (six digits after the decimal point, one line per shape, no header)
and re-parsing the text succeeds and reproduces every tuple to 6-decimal
precision. -/
theorem C6_theorem (ls : List Label)
    (h : ∀ l ∈ ls, 0 ≤ l.cx ∧ 0 ≤ l.cy ∧ 0 ≤ l.w ∧ 0 ≤ l.h) :
    parseLabelFile (writeLabelFile ls) = some (ls.map roundLabel) ∧
    List.Forall₂ (fun p l => p.classId = l.classId ∧ eq6 p.cx l.cx ∧ eq6 p.cy l.cy ∧
      eq6 p.w l.w ∧ eq6 p.h l.h) (ls.map roundLabel) ls :=
  ⟨parseLabelFile_writeLabelFile ls, forall2_roundLabel ls h⟩

/-- C6 witness: a concrete one-line file round-trips. -/
theorem C6_witness :
    (∀ l ∈ [(⟨0, 1 / 8, 1 / 8, 1 / 4, 1 / 4⟩ : Label)],
      0 ≤ l.cx ∧ 0 ≤ l.cy ∧ 0 ≤ l.w ∧ 0 ≤ l.h) ∧
    (parseLabelFile (writeLabelFile [(⟨0, 1 / 8, 1 / 8, 1 / 4, 1 / 4⟩ : Label)]) =
      some ([(⟨0, 1 / 8, 1 / 8, 1 / 4, 1 / 4⟩ : Label)].map roundLabel) ∧
    List.Forall₂ (fun p l => p.classId = l.classId ∧ eq6 p.cx l.cx ∧ eq6 p.cy l.cy ∧
      eq6 p.w l.w ∧ eq6 p.h l.h)
      ([(⟨0, 1 / 8, 1 / 8, 1 / 4, 1 / 4⟩ : Label)].map roundLabel)
      [(⟨0, 1 / 8, 1 / 8, 1 / 4, 1 / 4⟩ : Label)]) :=
  ⟨by
    intro l hl
    rw [List.mem_singleton] at hl
    subst hl
    refine ⟨?_, ?_, ?_, ?_⟩ <;> norm_num,
   C6_theorem [(⟨0, 1 / 8, 1 / 8, 1 / 4, 1 / 4⟩ : Label)] (by
    intro l hl
    rw [List.mem_singleton] at hl
    subst hl
    refine ⟨?_, ?_, ?_, ?_⟩ <;> norm_num)⟩

/-! ## Claim C7 -/

/-- C7: each shape carries a border exactly when its `random.random()` draw
exceeds `1/2`; the border color is the fill color with each channel
reduced by `50`, computed with no clamping; for the fill `[20, 20, 200]`
the computed border color `[-30, -30, 150]` contains a negative channel. -/
theorem C7_theorem (sz : ℤ) (ns : Option ℕ) (s : RandSrc) (hv : SrcValid sz s) :
    (∀ p ∈ genPlacements sz ns s,
      ∃ k, k < shapeCount s ns ∧
        (p.hasBorder = true ↔ 1 / 2 < s.borderDraw k) ∧
        p.color ∈ red_variations ∧
        border_color p.color = p.color.map (fun c => c - 50)) ∧
    border_color [20, 20, 200] = [-30, -30, 150] ∧
    ∃ c ∈ border_color [20, 20, 200], c < 0 := by
  refine ⟨?_, by decide, ⟨-30, by decide, by norm_num⟩⟩
  intro p hp
  obtain ⟨k, hk, hfit, rfl⟩ := mem_genPlacements sz ns s p hp
  refine ⟨k, hk, ?_, ?_, rfl⟩
  · show decide ((1 : ℚ) / 2 < s.borderDraw k) = true ↔ 1 / 2 < s.borderDraw k
    exact decide_eq_true_iff
  · obtain ⟨-, -, -, -, -, -, -, -, hcol, -⟩ := hv
    have hck := hcol k
    show red_variations.getD (s.colorDraw k) [] ∈ red_variations
    interval_cases h : s.colorDraw k <;> decide

/-- C7 witness: the theorem applied at a concrete call. -/
theorem C7_witness :
    SrcValid 200 trivSrc ∧
    ((∀ p ∈ genPlacements 200 (some 1) trivSrc,
      ∃ k, k < shapeCount trivSrc (some 1) ∧
        (p.hasBorder = true ↔ 1 / 2 < trivSrc.borderDraw k) ∧
        p.color ∈ red_variations ∧
        border_color p.color = p.color.map (fun c => c - 50)) ∧
    border_color [20, 20, 200] = [-30, -30, 150] ∧
    ∃ c ∈ border_color [20, 20, 200], c < 0) :=
  ⟨trivSrc_valid 200 (by norm_num),
   C7_theorem 200 (some 1) trivSrc (trivSrc_valid 200 (by norm_num))⟩

/-! ## Claim C8 -/

/-- C8: the generator is referentially transparent — its output is a pure
function of its arguments and the random draws it consumes.  Two sources
agreeing on the background draws, the in-canvas noise entries, the count
draw (when the count is omitted) and the per-shape draws below the shape
count yield the same success, the same annotation sequence, the same
shapes, and the same canvas at every pixel inside the image. -/
theorem C8_theorem (sz : ℤ) (ns : Option ℕ) (s1 s2 : RandSrc)
    (hbg : ∀ c, s1.bg c = s2.bg c)
    (hnoise : ∀ i j c, 0 ≤ i → i < sz → 0 ≤ j → j < sz → s1.noise i j c = s2.noise i j c)
    (hcount : ns = none → s1.countDraw = s2.countDraw)
    (hsize : ∀ k, k < shapeCount s1 ns → s1.sizeDraw k = s2.sizeDraw k)
    (hx : ∀ k, k < shapeCount s1 ns → s1.xDraw k = s2.xDraw k)
    (hy : ∀ k, k < shapeCount s1 ns → s1.yDraw k = s2.yDraw k)
    (hcol : ∀ k, k < shapeCount s1 ns → s1.colorDraw k = s2.colorDraw k)
    (hbord : ∀ k, k < shapeCount s1 ns → s1.borderDraw k = s2.borderDraw k) :
    ((generate_red_square_image sz ns s1).isSome ↔ (generate_red_square_image sz ns s2).isSome) ∧
    genLabels sz ns s1 = genLabels sz ns s2 ∧
    genPlacements sz ns s1 = genPlacements sz ns s2 ∧
    (∀ i j c, 0 ≤ i → i < sz → 0 ≤ j → j < sz →
      genImage sz ns s1 i j c = genImage sz ns s2 i j c) := by
  have hn : shapeCount s2 ns = shapeCount s1 ns := by
    cases ns with
    | some n => rfl
    | none =>
      show s2.countDraw.toNat = s1.countDraw.toNat
      rw [hcount rfl]
  by_cases hfit : ∀ k, k < shapeCount s1 ns → s1.sizeDraw k ≤ sz
  · have hfit2 : ∀ k, k < shapeCount s2 ns → s2.sizeDraw k ≤ sz := by
      intro k hk
      rw [hn] at hk
      rw [← hsize k hk]
      exact hfit k hk
    have he1 := generate_eq_of_fits sz ns s1 hfit
    have he2 := generate_eq_of_fits sz ns s2 hfit2
    have hps : (List.range (shapeCount s2 ns)).map (mkPlacement s2)
        = (List.range (shapeCount s1 ns)).map (mkPlacement s1) := by
      rw [hn]
      apply List.map_congr_left
      intro k hk
      have hk2 := List.mem_range.mp hk
      exact (mkPlacement_congr s1 s2 k (hsize k hk2) (hx k hk2) (hy k hk2)
        (hcol k hk2) (hbord k hk2)).symm
    have hls : (List.range (shapeCount s2 ns)).map (mkLabel sz s2)
        = (List.range (shapeCount s1 ns)).map (mkLabel sz s1) := by
      rw [hn]
      apply List.map_congr_left
      intro k hk
      have hk2 := List.mem_range.mp hk
      exact (mkLabel_congr sz s1 s2 k (hsize k hk2) (hx k hk2) (hy k hk2)).symm
    refine ⟨by rw [he1, he2]; simp, ?_, ?_, ?_⟩
    · unfold genLabels
      rw [he1, he2, hls]
    · unfold genPlacements
      rw [he1, he2, hps]
    · intro i j c h0 h1 h2 h3
      unfold genImage
      rw [he1, he2, hps]
      show (((List.range (shapeCount s1 ns)).map (mkPlacement s1)).foldl drawShape
          (bgCanvas s1)) i j c
        = (((List.range (shapeCount s1 ns)).map (mkPlacement s1)).foldl drawShape
          (bgCanvas s2)) i j c
      apply foldl_drawShape_congr
      show clamp255 (s1.bg c + s1.noise i j c) = clamp255 (s2.bg c + s2.noise i j c)
      rw [hbg c, hnoise i j c h0 h1 h2 h3]
  · have hfit2 : ¬ ∀ k, k < shapeCount s2 ns → s2.sizeDraw k ≤ sz := by
      intro hall
      apply hfit
      intro k hk
      rw [hsize k hk]
      exact hall k (by rw [hn]; exact hk)
    have hnone1 : generate_red_square_image sz ns s1 = none := by
      cases hg : generate_red_square_image sz ns s1 with
      | none => rfl
      | some t =>
        exact absurd (genLoop_fits_of_isSome sz s1 (shapeCount s1 ns)
          (by rw [show genLoop sz s1 (shapeCount s1 ns) = some t from hg]; rfl)) hfit
    have hnone2 : generate_red_square_image sz ns s2 = none := by
      cases hg : generate_red_square_image sz ns s2 with
      | none => rfl
      | some t =>
        exact absurd (genLoop_fits_of_isSome sz s2 (shapeCount s2 ns)
          (by rw [show genLoop sz s2 (shapeCount s2 ns) = some t from hg]; rfl)) hfit2
    refine ⟨by rw [hnone1, hnone2], ?_, ?_, ?_⟩
    · unfold genLabels
      rw [hnone1, hnone2]
    · unfold genPlacements
      rw [hnone1, hnone2]
    · intro i j c h0 h1 h2 h3
      unfold genImage
      rw [hnone1, hnone2]

/-- C8 witness: `trivSrc` and `altSrc` differ only on entries a
`(200, some 1)` call never consumes (noise at rows `≥ 200`, per-shape
draws with index `≥ 1`), and such a call cannot tell them apart. -/
theorem C8_witness :
    ((generate_red_square_image 200 (some 1) trivSrc).isSome ↔
      (generate_red_square_image 200 (some 1) altSrc).isSome) ∧
    genLabels 200 (some 1) trivSrc = genLabels 200 (some 1) altSrc ∧
    genPlacements 200 (some 1) trivSrc = genPlacements 200 (some 1) altSrc ∧
    (∀ i j c, 0 ≤ i → i < 200 → 0 ≤ j → j < 200 →
      genImage 200 (some 1) trivSrc i j c = genImage 200 (some 1) altSrc i j c) :=
  C8_theorem 200 (some 1) trivSrc altSrc
    (fun _ => rfl)
    (by
      intro i j c h0 h1 h2 h3
      show (0 : ℤ) = if 200 ≤ i then 7 else 0
      rw [if_neg (by omega)])
    (fun h => nomatch h)
    (by
      intro k hk
      have hk1 : k < 1 := hk
      have hk0 : k = 0 := by omega
      subst hk0
      rfl)
    (by
      intro k hk
      have hk1 : k < 1 := hk
      have hk0 : k = 0 := by omega
      subst hk0
      rfl)
    (by
      intro k hk
      have hk1 : k < 1 := hk
      have hk0 : k = 0 := by omega
      subst hk0
      rfl)
    (by
      intro k hk
      have hk1 : k < 1 := hk
      have hk0 : k = 0 := by omega
      subst hk0
      rfl)
    (by
      intro k hk
      have hk1 : k < 1 := hk
      have hk0 : k = 0 := by omega
      subst hk0
      rfl)

/-! ## Claim C9 -/

/-- C9: on a missing input image, on a decode failure, and on a missing
model weight file, the scripts print an error message and return early —
the outcome is a normal return, not an exception — performing no
filesystem write and (for the detector) not even attempting the read.
Both scripts are covered: `detect_red_square` for its missing-image and
decode-failure guards, `predict_single_image` for its missing-model guard
(line 23) and its missing-image guard (lines 28-30). -/
theorem C9_theorem (w : World) (ip op mp sd : String) :
    (w.pathOk ip = false →
      (detect_red_square w ip op).2 = Outcome.returned ∧
      Ev.print (("错误：找不到图片文件 ") ++ ip) ∈ (detect_red_square w ip op).1 ∧
      (detect_red_square w ip op).1.filter isFsWrite = [] ∧
      Ev.imreadCall ip ∉ (detect_red_square w ip op).1) ∧
    (w.pathOk ip = true → w.decodeOk ip = false →
      (detect_red_square w ip op).2 = Outcome.returned ∧
      Ev.print (("错误：无法读取图片 ") ++ ip) ∈ (detect_red_square w ip op).1 ∧
      (detect_red_square w ip op).1.filter isFsWrite = []) ∧
    (w.pathOk mp = false →
      (predict_single_image w mp ip sd).2 = Outcome.returned ∧
      Ev.print (("错误：找不到模型文件 ") ++ mp) ∈ (predict_single_image w mp ip sd).1 ∧
      (predict_single_image w mp ip sd).1.filter isFsWrite = []) ∧
    (w.pathOk mp = true → w.pathOk ip = false →
      (predict_single_image w mp ip sd).2 = Outcome.returned ∧
      Ev.print (("错误：找不到图片文件 ") ++ ip) ∈ (predict_single_image w mp ip sd).1 ∧
      (predict_single_image w mp ip sd).1.filter isFsWrite = [] ∧
      (predict_single_image w mp ip sd).1.filter isLoad = []) := by
  refine ⟨?_, ?_, ?_, ?_⟩
  · intro h
    simp [detect_red_square, h, isFsWrite]
  · intro h1 h2
    simp [detect_red_square, h1, h2, isFsWrite]
  · intro h
    simp [predict_single_image, h, isFsWrite]
  · intro h1 h2
    simp [predict_single_image, h1, h2, isFsWrite, isLoad]

/-- C9 witness: concrete worlds exercising each guarded path, including
the missing-image early return of `predict_single_image` in a world where
only the model file exists. -/
theorem C9_witness :
    wAbsent.pathOk ("t.jpg") = false ∧
    (detect_red_square wAbsent ("t.jpg") ("out.png")).2 = Outcome.returned ∧
    (predict_single_image wAbsent ("best.pt") ("t.jpg") ("predictions")).2 = Outcome.returned ∧
    (detect_red_square wNoDecode ("t.jpg") ("out.png")).2 = Outcome.returned ∧
    ((predict_single_image wModelOnly ("best.pt") ("t.jpg") ("predictions")).2 =
        Outcome.returned ∧
      Ev.print (("错误：找不到图片文件 ") ++ ("t.jpg")) ∈
        (predict_single_image wModelOnly ("best.pt") ("t.jpg") ("predictions")).1 ∧
      (predict_single_image wModelOnly ("best.pt") ("t.jpg") ("predictions")).1.filter
        isFsWrite = [] ∧
      (predict_single_image wModelOnly ("best.pt") ("t.jpg") ("predictions")).1.filter
        isLoad = []) :=
  ⟨rfl,
   ((C9_theorem wAbsent ("t.jpg") ("out.png") ("best.pt") ("predictions")).1 rfl).1,
   ((C9_theorem wAbsent ("t.jpg") ("out.png") ("best.pt") ("predictions")).2.2.1 rfl).1,
   ((C9_theorem wNoDecode ("t.jpg") ("out.png") ("best.pt") ("predictions")).2.1 rfl rfl).1,
   (C9_theorem wModelOnly ("t.jpg") ("out.png") ("best.pt") ("predictions")).2.2.2
     (by decide) (by decide)⟩

/-! ## Claim C10 -/

/-- C10: `predict_single_image` checks the model file and the image file
before anything else; on either missing-file path it performs no model
load and no filesystem write (the outcome is a plain return); the
`predictions` directory is created only after both checks pass and the
model has been loaded — the load event precedes the `mkdir`, and nothing
before the `mkdir` writes to the filesystem. -/
theorem C10_theorem (w : World) (mp ip sd : String) :
    (w.pathOk mp = false ∨ (w.pathOk mp = true ∧ w.pathOk ip = false) →
      (predict_single_image w mp ip sd).1.filter isFsWrite = [] ∧
      (predict_single_image w mp ip sd).1.filter isLoad = [] ∧
      (predict_single_image w mp ip sd).2 = Outcome.returned) ∧
    (w.pathOk mp = true → w.pathOk ip = true →
      ∃ pre post,
        (predict_single_image w mp ip sd).1 = pre ++ Ev.mkdir sd :: post ∧
        Ev.loadModel mp ∈ pre ∧ pre.filter isFsWrite = []) := by
  constructor
  · intro h
    rcases h with h | ⟨h1, h2⟩
    · simp [predict_single_image, h, isFsWrite, isLoad]
    · simp [predict_single_image, h1, h2, isFsWrite, isLoad]
  · intro h1 h2
    refine ⟨[Ev.print (("使用模型 ") ++ mp), Ev.print (("检测图片 ") ++ ip),
      Ev.print ("正在加载模型"), Ev.loadModel mp, Ev.print ("模型加载成功"),
      Ev.print ("正在检测"), Ev.predictCall ip], resultEvents w sd, ?_, ?_, ?_⟩
    · simp [predict_single_image, loadModelOp, h1, h2]
    · simp
    · simp [isFsWrite]

/-- C10 witness: the theorem applied at two concrete worlds. -/
theorem C10_witness :
    ((predict_single_image wModelOnly ("best.pt") ("t.jpg") ("predictions")).1.filter
        isFsWrite = [] ∧
      (predict_single_image wModelOnly ("best.pt") ("t.jpg") ("predictions")).1.filter
        isLoad = [] ∧
      (predict_single_image wModelOnly ("best.pt") ("t.jpg") ("predictions")).2 =
        Outcome.returned) ∧
    (∃ pre post,
      (predict_single_image wAllOk ("best.pt") ("t.jpg") ("predictions")).1 =
        pre ++ Ev.mkdir ("predictions") :: post ∧
      Ev.loadModel ("best.pt") ∈ pre ∧ pre.filter isFsWrite = []) :=
  ⟨(C10_theorem wModelOnly ("best.pt") ("t.jpg") ("predictions")).1
    (Or.inr ⟨by decide, by decide⟩),
   (C10_theorem wAllOk ("best.pt") ("t.jpg") ("predictions")).2 rfl rfl⟩
